import Mathlib

/-!
Verification development for the LANGCHAIN_OVERVIEW RAG pipeline.

The repository is a notebook that wires together a document chunker
(RecursiveCharacterTextSplitter with chunk_size 1000 and chunk_overlap 200),
a FAISS vector index with a retriever, a two-message chat prompt, a
structured-output language model bound to the three-field ResponseFormatter
schema, and JSON serialization of the structured response
(to_json_string, json.dumps with indent 2, parsed back with json.loads).

Python text is modelled as a list of Unicode code points (List Nat); a
code point is valid when it is a Unicode scalar value.  Components whose
implementation lives in external libraries (the chunker, the vector
index, the structured-output validator, the pipe composition semantics)
are modelled from the specification, as marked in their doc comments;
everything else is translated directly from the notebook source.
-/

/-- Code points of a Lean string literal, used to embed Python string
literals from the notebook as lists of Unicode code points. -/
def String.cp (s : String) : List Nat :=
  s.data.map (fun c => c.toNat)

/-- The first field name of the ResponseFormatter schema. -/
def answerKey : List Nat :=
  "answer".cp

/-- The second field name of the ResponseFormatter schema. -/
def poemKey : List Nat :=
  "poem".cp

/-- The third field name of the ResponseFormatter schema. -/
def followupKey : List Nat :=
  "followup_question".cp

/-- A code point is valid when it is a Unicode scalar value: below the
surrogate range or above it and below 0x110000. -/
def ValidCP (c : Nat) : Prop :=
  c < 55296 ∨ (57344 ≤ c ∧ c < 1114112)

instance (c : Nat) : Decidable (ValidCP c) := by
  unfold ValidCP; infer_instance

/-- A text is valid when every code point is a Unicode scalar value. -/
def ValidText (s : List Nat) : Prop :=
  ∀ c ∈ s, ValidCP c

instance (s : List Nat) : Decidable (ValidText s) := by
  unfold ValidText; infer_instance

/-- Configuration error raised by the chunker when overlap is not smaller
than the chunk size (the spec's fail-fast configuration check). -/
inductive SplitError where
  | configurationError
deriving DecidableEq

/-- Modelled from the spec: the recursive loop of the Chunker contract
`split(document, chunk_size, overlap)`.  The boundary policy of the
library RecursiveCharacterTextSplitter is external code, so the spec's
deterministic hard-cut fallback is used: each chunk is the next
`size`-character window and consecutive windows share `ov` characters,
so the window start advances by `size - ov`.  A document no longer than
`size` is a single chunk, and an empty document yields no chunks. -/
def splitGo (size ov : Nat) (hso : ov < size) (doc : List Nat) : List (List Nat) :=
  if _h0 : doc.length = 0 then []
  else if _h1 : doc.length ≤ size then [doc]
  else doc.take size :: splitGo size ov hso (doc.drop (size - ov))
termination_by doc.length
decreasing_by
  simp only [List.length_drop]
  omega

/-- Modelled from the spec: the Chunker contract
`split(document, chunk_size, overlap) -> ordered sequence of Chunk`,
failing fast with a configuration error when `overlap >= chunk_size`. -/
def split (doc : List Nat) (chunk_size chunk_overlap : Nat) :
    Except SplitError (List (List Nat)) :=
  if h : chunk_overlap < chunk_size then .ok (splitGo chunk_size chunk_overlap h doc)
  else .error .configurationError

/-- C4: with chunk_size 1000 and chunk_overlap 200, splitting any
1500-character document yields exactly two chunks, the first of length
1000, and the last 200 characters of the first chunk equal the first 200
characters of the second chunk. -/
theorem C4_split_1500_two_chunks (doc : List Nat) (h : doc.length = 1500) :
    split doc 1000 200 = .ok [doc.take 1000, doc.drop 800] ∧
    (doc.take 1000).length = 1000 ∧
    (doc.take 1000).drop 800 = (doc.drop 800).take 200 ∧
    ((doc.take 1000).drop 800).length = 200 := by
  refine ⟨?_, ?_, ?_, ?_⟩
  · unfold split
    rw [dif_pos (by norm_num : (200:Nat) < 1000)]
    unfold splitGo
    rw [dif_neg (by omega), dif_neg (by omega)]
    unfold splitGo
    rw [dif_neg (by simp [List.length_drop, h]), dif_pos (by simp [List.length_drop, h])]
  · simp [List.length_take, h]
  · rw [List.drop_take]
  · simp [List.length_take, List.length_drop, h]

/-- Concrete 1500-character document used to witness `C4_split_1500_two_chunks`. -/
def docC4 : List Nat := List.replicate 1500 97

theorem C4_split_1500_two_chunks_witness :
    docC4.length = 1500 ∧
    (split docC4 1000 200 = .ok [docC4.take 1000, docC4.drop 800] ∧
      (docC4.take 1000).length = 1000 ∧
      (docC4.take 1000).drop 800 = (docC4.drop 800).take 200 ∧
      ((docC4.take 1000).drop 800).length = 200) :=
  ⟨by rw [docC4, List.length_replicate],
    C4_split_1500_two_chunks docC4 (by rw [docC4, List.length_replicate])⟩

/-- C5: the chunker is deterministic: two runs of `split` on the same
document with the same configuration return identical chunk sequences. -/
theorem C5_split_deterministic (doc : List Nat) (size ov : Nat)
    (r1 r2 : Except SplitError (List (List Nat)))
    (h1 : r1 = split doc size ov) (h2 : r2 = split doc size ov) : r1 = r2 :=
  h1.trans h2.symm

theorem C5_split_deterministic_witness :
    split [97, 98, 99] 1000 200 = split [97, 98, 99] 1000 200 :=
  C5_split_deterministic [97, 98, 99] 1000 200 _ _ rfl rfl

/-- An entry of the vector index: a chunk text with its embedding vector.
Modelled from the spec: the Vector Index stores (vector, chunk) pairs;
the internal identifier of an entry is its insertion position. -/
structure IndexEntry where
  chunk : List Nat
  vec : List Int
deriving DecidableEq

/-- Modelled from the spec: the Vector Index, with its configured
dimensionality and its entries in insertion order (FAISS is external
library code, so the index is modelled as the spec's exact brute-force
scan with the inner-product similarity metric). -/
structure VectorIndex where
  dim : Nat
  entries : List IndexEntry
deriving DecidableEq

/-- Index error for a dimension mismatch on insert. -/
inductive IndexError where
  | dimensionMismatch
deriving DecidableEq

/-- Modelled from the spec: `insert(chunk, vector)` adds one entry and
fails if the vector's length differs from the configured dimension. -/
def VectorIndex.insert (idx : VectorIndex) (chunk : List Nat) (vec : List Int) :
    Except IndexError VectorIndex :=
  if vec.length = idx.dim then .ok ⟨idx.dim, idx.entries ++ [⟨chunk, vec⟩]⟩
  else .error .dimensionMismatch

/-- Inner-product similarity between two vectors. -/
def dot (u v : List Int) : Int :=
  (List.zipWith (fun a b => a * b) u v).sum

/-- A search result: the entry's internal identifier (insertion
position), its chunk text, and its similarity score. -/
structure Scored where
  id : Nat
  chunk : List Nat
  score : Int
deriving DecidableEq

/-- Insert a scored entry into a list already ranked by non-increasing
score, placing it after all entries with a score at least as large, so
that ties keep the earlier-inserted entry first. -/
def rankInsert (x : Scored) : List Scored → List Scored
  | [] => [x]
  | y :: ys => if y.score < x.score then x :: y :: ys else y :: rankInsert x ys

/-- Rank a list of scored entries by non-increasing score, processing
entries in insertion order so that score ties keep insertion order. -/
def rankList (l : List Scored) : List Scored :=
  l.foldl (fun acc x => rankInsert x acc) []

/-- Score every entry of the index against a query vector, tagging each
with its insertion position as identifier. -/
def scoredEntries (idx : VectorIndex) (q : List Int) : List Scored :=
  idx.entries.enum.map (fun p => ⟨p.1, p.2.chunk, dot q p.2.vec⟩)

/-- Modelled from the spec: `search(query_vector, k)` ranks all entries
by similarity (ties broken by insertion order, earliest first) and
returns the top k; searching an empty index returns the empty sequence,
which is a valid result and not an error. -/
def search (idx : VectorIndex) (q : List Int) (k : Nat) : List Scored :=
  (rankList (scoredEntries idx q)).take k

/-- The empty vector index of a given dimensionality. -/
def emptyIndex (d : Nat) : VectorIndex := ⟨d, []⟩

theorem rankInsert_perm (x : Scored) (l : List Scored) :
    (rankInsert x l).Perm (x :: l) := by
  induction l with
  | nil => simp [rankInsert]
  | cons y ys ih =>
    by_cases h : y.score < x.score
    · simp [rankInsert, h]
    · rw [rankInsert, if_neg h]
      exact (ih.cons y).trans (List.Perm.swap x y ys)

/-- The ranking order: a result listed before another has a score at
least as large, and on a score tie a smaller identifier, so that entries
inserted earlier rank first among ties. -/
def rankRel (a b : Scored) : Prop :=
  b.score ≤ a.score ∧ (a.score = b.score → a.id < b.id)

theorem rankInsert_stable (x : Scored) (l : List Scored)
    (hl : l.Pairwise rankRel) (hid : ∀ y ∈ l, y.id < x.id) :
    (rankInsert x l).Pairwise rankRel := by
  induction l with
  | nil => simp [rankInsert]
  | cons y ys ih =>
    rcases List.pairwise_cons.mp hl with ⟨hy, hys⟩
    by_cases h : y.score < x.score
    · rw [rankInsert, if_pos h]
      refine List.pairwise_cons.mpr ⟨?_, hl⟩
      intro b hb
      rcases List.mem_cons.mp hb with hb | hb
      · subst hb
        exact ⟨le_of_lt h, fun hs => absurd hs (by omega)⟩
      · have hyb := hy b hb
        have hb1 := hyb.1
        exact ⟨le_trans hb1 (le_of_lt h), fun hs => absurd hs (by omega)⟩
    · rw [rankInsert, if_neg h]
      refine List.pairwise_cons.mpr
        ⟨?_, ih hys (fun z hz => hid z (List.mem_cons_of_mem y hz))⟩
      intro b hb
      have hbx : b ∈ x :: ys := (rankInsert_perm x ys).mem_iff.mp hb
      rcases List.mem_cons.mp hbx with hb2 | hb2
      · subst hb2
        exact ⟨le_of_not_lt h, fun _ => hid y (List.mem_cons_self y ys)⟩
      · exact hy b hb2

theorem rankFold_stable (l : List Scored) :
    ∀ acc : List Scored, acc.Pairwise rankRel →
    (∀ x ∈ l, ∀ y ∈ acc, y.id < x.id) →
    l.Pairwise (fun a b => a.id < b.id) →
    (l.foldl (fun acc x => rankInsert x acc) acc).Pairwise rankRel := by
  induction l with
  | nil =>
    intro acc hacc _ _
    simpa using hacc
  | cons x xs ih =>
    intro acc hacc hrel hl
    rw [List.foldl_cons]
    rcases List.pairwise_cons.mp hl with ⟨hx, hxs⟩
    refine ih (rankInsert x acc)
      (rankInsert_stable x acc hacc (hrel x (List.mem_cons_self x xs))) ?_ hxs
    intro z hz y hy
    have hyx : y ∈ x :: acc := (rankInsert_perm x acc).mem_iff.mp hy
    rcases List.mem_cons.mp hyx with hy2 | hy2
    · subst hy2
      exact hx z hz
    · exact hrel z (List.mem_cons_of_mem x hz) y hy2

theorem rankFold_perm (l acc : List Scored) :
    (l.foldl (fun acc x => rankInsert x acc) acc).Perm (acc ++ l) := by
  induction l generalizing acc with
  | nil => simp
  | cons x xs ih =>
    rw [List.foldl_cons]
    have h1 := ih (rankInsert x acc)
    have h2 : (rankInsert x acc ++ xs).Perm ((x :: acc) ++ xs) :=
      (rankInsert_perm x acc).append_right xs
    have h3 : ((x :: acc) ++ xs).Perm (acc ++ x :: xs) := by
      simpa using (@List.perm_middle _ x acc xs).symm
    exact (h1.trans h2).trans h3

theorem rankList_perm (l : List Scored) : (rankList l).Perm l := by
  simpa [rankList] using rankFold_perm l []

theorem scoredEntries_ids (idx : VectorIndex) (q : List Int) :
    (scoredEntries idx q).map (fun s => s.id) = List.range idx.entries.length := by
  unfold scoredEntries
  rw [List.map_map]
  exact List.enum_map_fst idx.entries

/-- C7: searching an empty vector index returns the empty result
sequence for every query vector and every k; the result is an ordinary
value, not an error. -/
theorem C7_search_empty_index (d : Nat) (q : List Int) (k : Nat) :
    search (emptyIndex d) q k = [] := by
  simp [search, scoredEntries, emptyIndex, rankList]

/-- C8 counterexample: two entries with identical vectors tie in score,
and the tie is broken by insertion order, so both appear in the result
and the scores are not strictly descending. -/
def idxC8 : VectorIndex := ⟨1, [⟨[97], [1]⟩, ⟨[98], [1]⟩]⟩

theorem C8_counterexample :
    search idxC8 [1] 2 = [⟨0, [97], 1⟩, ⟨1, [98], 1⟩] ∧
    ¬ (search idxC8 [1] 2).Pairwise (fun a b => b.score < a.score) := by
  constructor
  · rfl
  · decide

theorem scoredEntries_pairwise_id (idx : VectorIndex) (q : List Int) :
    (scoredEntries idx q).Pairwise (fun a b => a.id < b.id) := by
  have h1 : ((scoredEntries idx q).map (fun s => s.id)).Pairwise (fun a b => a < b) := by
    rw [scoredEntries_ids]
    exact List.pairwise_lt_range _
  exact List.pairwise_map.mp h1

theorem search_pairwise_rankRel (idx : VectorIndex) (q : List Int) (k : Nat) :
    (search idx q k).Pairwise rankRel :=
  List.Pairwise.sublist (List.take_sublist _ _)
    (rankFold_stable (scoredEntries idx q) [] (by simp) (by simp)
      (scoredEntries_pairwise_id idx q))

/-- C8 (amended): for every index state, query vector and k, the search
result has length at most k, its scores are non-increasing (strictly
descending only up to ties), equal-score results appear in insertion
order (the earlier-inserted, smaller identifier first), and it contains
no duplicate chunk identifiers. -/
theorem C8_search_invariants (idx : VectorIndex) (q : List Int) (k : Nat) :
    (search idx q k).length ≤ k ∧
    (search idx q k).Pairwise (fun a b => b.score ≤ a.score) ∧
    (search idx q k).Pairwise (fun a b => a.score = b.score → a.id < b.id) ∧
    ((search idx q k).map (fun s => s.id)).Nodup := by
  refine ⟨?_, ?_, ?_, ?_⟩
  · rw [search, List.length_take]
    exact min_le_left _ _
  · exact (search_pairwise_rankRel idx q k).imp (fun h => h.1)
  · exact (search_pairwise_rankRel idx q k).imp (fun h => h.2)
  · have hperm : ((rankList (scoredEntries idx q)).map (fun s => s.id)).Perm
        ((scoredEntries idx q).map (fun s => s.id)) :=
      (rankList_perm (scoredEntries idx q)).map _
    have hnd : ((rankList (scoredEntries idx q)).map (fun s => s.id)).Nodup := by
      refine hperm.symm.nodup ?_
      rw [scoredEntries_ids]
      exact List.nodup_range _
    exact List.Nodup.sublist ((List.take_sublist k _).map _) hnd

/-- Lowercase hexadecimal digit for a value below 16, as a code point. -/
def hexDigit (d : Nat) : Nat :=
  if d < 10 then 48 + d else 87 + d

/-- Four lowercase hexadecimal digits of a value below 0x10000, as code
points, mirroring the %04x formatting used by json.dumps. -/
def toHex4 (n : Nat) : List Nat :=
  [hexDigit (n / 4096), hexDigit (n / 256 % 16), hexDigit (n / 16 % 16), hexDigit (n % 16)]

/-- Escape of one code point, translated from the json.dumps string
escaper with its default ensure_ascii behavior: quote, backslash and the
named control characters get two-character escapes, other characters
below 0x20 and all characters above 0x7e get (pairs of) backslash-u
escapes, with astral code points encoded as a surrogate pair, and the
printable ASCII range is emitted verbatim. -/
def escapeChar (c : Nat) : List Nat :=
  if c = 34 then [92, 34]
  else if c = 92 then [92, 92]
  else if c = 8 then [92, 98]
  else if c = 9 then [92, 116]
  else if c = 10 then [92, 110]
  else if c = 12 then [92, 102]
  else if c = 13 then [92, 114]
  else if c < 32 then 92 :: 117 :: toHex4 c
  else if c ≤ 126 then [c]
  else if c < 65536 then 92 :: 117 :: toHex4 c
  else (92 :: 117 :: toHex4 (55296 + (c - 65536) / 1024)) ++
    (92 :: 117 :: toHex4 (56320 + (c - 65536) % 1024))

/-- Escape of a whole text, character by character. -/
def escape (s : List Nat) : List Nat :=
  (s.map escapeChar).flatten

/-- A JSON string literal: opening quote, escaped body, closing quote. -/
def encodeString (s : List Nat) : List Nat :=
  34 :: (escape s ++ [34])

/-- One member line of json.dumps with indent 2: two spaces of
indentation, the encoded key, a colon and a space, the encoded value. -/
def memberEnc (kv : List Nat × List Nat) : List Nat :=
  [32, 32] ++ (encodeString kv.1 ++ ([58, 32] ++ encodeString kv.2))

/-- Join a list of texts with a separator, mirroring str.join. -/
def joinSep (sep : List Nat) : List (List Nat) → List Nat
  | [] => []
  | [x] => x
  | x :: xs => x ++ (sep ++ joinSep sep xs)

/-- json.dumps of a string-valued dict with indent 2: an opening brace
and newline, the member lines joined by comma-newline, a closing newline
and brace; the empty dict prints as a bare brace pair. -/
def dumpsDict (fs : List (List Nat × List Nat)) : List Nat :=
  match fs with
  | [] => [123, 125]
  | _ => [123, 10] ++ (joinSep [44, 10] (fs.map memberEnc) ++ [10, 125])

/-- The notebook's ResponseFormatter pydantic model: three string
fields, answer, poem and followup_question. -/
structure ResponseFormatter where
  answer : List Nat
  poem : List Nat
  followup_question : List Nat
deriving DecidableEq

/-- The field dictionary of a ResponseFormatter, in declaration order,
as produced by the pydantic dict() method. -/
def ResponseFormatter.fieldsDict (r : ResponseFormatter) : List (List Nat × List Nat) :=
  [(answerKey, r.answer), (poemKey, r.poem), (followupKey, r.followup_question)]

/-- The notebook's to_json_string: json.dumps of the response's field
dictionary with indent 2. -/
def to_json_string (r : ResponseFormatter) : List Nat :=
  dumpsDict r.fieldsDict

/-- Numeric value of a hexadecimal digit code point, accepting both
lowercase and uppercase letters as int(s, 16) does. -/
def hexVal (c : Nat) : Option Nat :=
  if 48 ≤ c ∧ c ≤ 57 then some (c - 48)
  else if 97 ≤ c ∧ c ≤ 102 then some (c - 87)
  else if 65 ≤ c ∧ c ≤ 70 then some (c - 55)
  else none

/-- Parse four hexadecimal digit code points into their value, returning
the remaining input, mirroring the backslash-u decoding of json.loads. -/
def parse4Hex : List Nat → Option (Nat × List Nat)
  | a :: b :: c :: d :: r =>
    match hexVal a, hexVal b, hexVal c, hexVal d with
    | some x, some y, some z, some w => some (((x * 16 + y) * 16 + z) * 16 + w, r)
    | _, _, _, _ => none
  | _ => none

/-- The two-character escapes accepted by json.loads. -/
def shortEsc (e : Nat) : Option Nat :=
  if e = 34 then some 34
  else if e = 92 then some 92
  else if e = 47 then some 47
  else if e = 98 then some 8
  else if e = 102 then some 12
  else if e = 110 then some 10
  else if e = 114 then some 13
  else if e = 116 then some 9
  else none

/-- After decoding a high surrogate, json.loads looks ahead for a
backslash-u escape holding a low surrogate and combines the pair; on any
other continuation the high surrogate stands alone and the input
position does not advance. -/
def pairLookahead (n : Nat) (r3 : List Nat) : Nat × List Nat :=
  match r3 with
  | a :: b :: r4 =>
    if a = 92 ∧ b = 117 then
      match parse4Hex r4 with
      | some (m, r5) =>
        if 56320 ≤ m ∧ m < 57344 then (65536 + (n - 55296) * 1024 + (m - 56320), r5)
        else (n, r3)
      | none => (n, r3)
    else (n, r3)
  | _ => (n, r3)

theorem parse4Hex_length {l : List Nat} {n : Nat} {r : List Nat}
    (h : parse4Hex l = some (n, r)) : r.length + 4 = l.length := by
  match l with
  | [] => exact absurd h (by simp [parse4Hex])
  | [a] => exact absurd h (by simp [parse4Hex])
  | [a, b] => exact absurd h (by simp [parse4Hex])
  | [a, b, c] => exact absurd h (by simp [parse4Hex])
  | a :: b :: c :: d :: t =>
    simp only [parse4Hex] at h
    rcases hA : hexVal a with _ | x <;> rw [hA] at h <;>
      rcases hB : hexVal b with _ | y <;> rw [hB] at h <;>
        rcases hC : hexVal c with _ | z <;> rw [hC] at h <;>
          rcases hD : hexVal d with _ | w <;> rw [hD] at h <;>
            simp_all

theorem pairLookahead_length (n : Nat) (r3 : List Nat) :
    (pairLookahead n r3).2.length ≤ r3.length := by
  unfold pairLookahead
  split
  · rename_i a b r4
    by_cases hab : a = 92 ∧ b = 117
    · rw [if_pos hab]
      rcases h5 : parse4Hex r4 with _ | ⟨m, r5⟩
      · simp
      · have h6 := parse4Hex_length h5
        by_cases hm : 56320 ≤ m ∧ m < 57344
        · simp only [hm, if_true, and_self]
          simp
          omega
        · simp [hm]
    · rw [if_neg hab]
  · simp

/-- The json.loads string scanner, translated from py_scanstring: after
an opening quote, a closing quote ends the string, a backslash starts an
escape (a two-character escape, or backslash-u with four hexadecimal
digits, with surrogate-pair combination via the lookahead), unescaped
control characters are rejected (strict mode), and any other character
is consumed verbatim.  The fuel argument only forces termination; every
step consumes input, so any fuel above the input length is enough. -/
def scanStr : Nat → List Nat → Option (List Nat × List Nat)
  | 0, _ => none
  | fuel + 1, l =>
    match l with
    | [] => none
    | c :: r =>
      if c = 34 then some ([], r)
      else if c = 92 then
        match r with
        | [] => none
        | e :: r2 =>
          if e = 117 then
            match parse4Hex r2 with
            | none => none
            | some (n, r3) =>
              if 55296 ≤ n ∧ n < 56320 then
                Option.map (fun p => ((pairLookahead n r3).1 :: p.1, p.2))
                  (scanStr fuel (pairLookahead n r3).2)
              else Option.map (fun p => (n :: p.1, p.2)) (scanStr fuel r3)
          else
            match shortEsc e with
            | some d => Option.map (fun p => (d :: p.1, p.2)) (scanStr fuel r2)
            | none => none
      else if c < 32 then none
      else Option.map (fun p => (c :: p.1, p.2)) (scanStr fuel r)

/-- The string scanner with enough fuel for its input. -/
def parseJString (l : List Nat) : Option (List Nat × List Nat) :=
  scanStr (l.length + 1) l

theorem scanStr_length : ∀ (f : Nat) (l s r : List Nat),
    scanStr f l = some (s, r) → r.length < l.length := by
  intro f
  induction f with
  | zero => intro l s r h; simp [scanStr] at h
  | succ fuel ih =>
    intro l s r h
    match l with
    | [] => simp [scanStr] at h
    | c :: t =>
      simp only [scanStr] at h
      by_cases h34 : c = 34
      · rw [if_pos h34] at h
        simp at h
        simp [h.2.symm]
      · rw [if_neg h34] at h
        by_cases h92 : c = 92
        · rw [if_pos h92] at h
          match t with
          | [] => simp at h
          | e :: r2 =>
            dsimp only [] at h
            by_cases h117 : e = 117
            · rw [if_pos h117] at h
              rcases h4 : parse4Hex r2 with _ | ⟨n, r3⟩
              · rw [h4] at h; simp at h
              · rw [h4] at h
                dsimp only [] at h
                have hlen := parse4Hex_length h4
                by_cases hsur : 55296 ≤ n ∧ n < 56320
                · rw [if_pos hsur] at h
                  rcases hp : scanStr fuel (pairLookahead n r3).2 with _ | ⟨s2, rx⟩
                  · rw [hp] at h; simp at h
                  · rw [hp] at h
                    simp at h
                    have hlt := ih _ _ _ hp
                    have hpl := pairLookahead_length n r3
                    have hr : r = rx := h.2.symm
                    subst hr
                    simp only [List.length_cons]
                    omega
                · rw [if_neg hsur] at h
                  rcases hp : scanStr fuel r3 with _ | ⟨s2, rx⟩
                  · rw [hp] at h; simp at h
                  · rw [hp] at h
                    simp at h
                    have hlt := ih _ _ _ hp
                    have hr : r = rx := h.2.symm
                    subst hr
                    simp only [List.length_cons]
                    omega
            · rw [if_neg h117] at h
              rcases hse : shortEsc e with _ | d
              · rw [hse] at h; simp at h
              · rw [hse] at h
                dsimp only [] at h
                rcases hp : scanStr fuel r2 with _ | ⟨s2, rx⟩
                · rw [hp] at h; simp at h
                · rw [hp] at h
                  simp at h
                  have hlt := ih _ _ _ hp
                  have hr : r = rx := h.2.symm
                  subst hr
                  simp only [List.length_cons]
                  omega
        · rw [if_neg h92] at h
          by_cases hctl : c < 32
          · rw [if_pos hctl] at h; simp at h
          · rw [if_neg hctl] at h
            rcases hp : scanStr fuel t with _ | ⟨s2, rx⟩
            · rw [hp] at h; simp at h
            · rw [hp] at h
              simp at h
              have hlt := ih _ _ _ hp
              have hr : r = rx := h.2.symm
              subst hr
              simp only [List.length_cons]
              omega

theorem scanStr_congr : ∀ (f1 f2 : Nat) (l : List Nat),
    l.length < f1 → l.length < f2 → scanStr f1 l = scanStr f2 l := by
  intro f1
  induction f1 with
  | zero => intro f2 l h1 h2; omega
  | succ f ih =>
    intro f2 l h1 h2
    cases f2 with
    | zero => omega
    | succ f2x =>
      match l with
      | [] => simp [scanStr]
      | c :: t =>
        have hlt : t.length < f ∧ t.length < f2x := by
          simp only [List.length_cons] at h1 h2
          omega
        simp only [scanStr]
        by_cases h34 : c = 34
        · rw [if_pos h34, if_pos h34]
        · rw [if_neg h34, if_neg h34]
          by_cases h92 : c = 92
          · rw [if_pos h92, if_pos h92]
            match t with
            | [] => rfl
            | e :: r2 =>
              dsimp only []
              simp only [List.length_cons] at h1 h2
              by_cases h117 : e = 117
              · rw [if_pos h117, if_pos h117]
                rcases h4 : parse4Hex r2 with _ | ⟨n, r3⟩
                · rfl
                · dsimp only []
                  have hlen := parse4Hex_length h4
                  by_cases hsur : 55296 ≤ n ∧ n < 56320
                  · rw [if_pos hsur, if_pos hsur]
                    have hpl := pairLookahead_length n r3
                    rw [ih f2x (pairLookahead n r3).2 (by omega) (by omega)]
                  · rw [if_neg hsur, if_neg hsur]
                    rw [ih f2x r3 (by omega) (by omega)]
              · rw [if_neg h117, if_neg h117]
                rcases hse : shortEsc e with _ | d
                · rfl
                · dsimp only []
                  rw [ih f2x r2 (by omega) (by omega)]
          · rw [if_neg h92, if_neg h92]
            by_cases hctl : c < 32
            · rw [if_pos hctl, if_pos hctl]
            · rw [if_neg hctl, if_neg hctl]
              rw [ih f2x t hlt.1 hlt.2]

theorem hexVal_hexDigit (d : Nat) (h : d < 16) : hexVal (hexDigit d) = some d := by
  unfold hexVal hexDigit
  by_cases h10 : d < 10
  · rw [if_pos h10, if_pos (by omega)]
    congr 1
    omega
  · rw [if_neg h10, if_neg (by omega), if_pos (by omega)]
    congr 1
    omega

theorem toHex4_length (n : Nat) : (toHex4 n).length = 4 := by
  simp [toHex4]

theorem parse4Hex_toHex4 (n : Nat) (h : n < 65536) (t : List Nat) :
    parse4Hex (toHex4 n ++ t) = some (n, t) := by
  have h1 : n / 4096 < 16 := by omega
  have h2 : n / 256 % 16 < 16 := Nat.mod_lt _ (by norm_num)
  have h3 : n / 16 % 16 < 16 := Nat.mod_lt _ (by norm_num)
  have h4 : n % 16 < 16 := Nat.mod_lt _ (by norm_num)
  simp only [toHex4, List.cons_append, List.nil_append, parse4Hex]
  rw [hexVal_hexDigit _ h1, hexVal_hexDigit _ h2, hexVal_hexDigit _ h3, hexVal_hexDigit _ h4]
  dsimp only []
  congr 2
  omega

theorem parseJString_quote (t : List Nat) : parseJString (34 :: t) = some ([], t) := by
  simp [parseJString, scanStr]

theorem parseJString_lit (c : Nat) (h1 : c ≠ 34) (h2 : c ≠ 92) (h3 : ¬ c < 32)
    (t : List Nat) :
    parseJString (c :: t) = Option.map (fun p => (c :: p.1, p.2)) (parseJString t) := by
  show scanStr ((c :: t).length + 1) (c :: t) = _
  have hf : (c :: t).length + 1 = (t.length + 1) + 1 := by simp
  rw [hf]
  generalize hgen : t.length + 1 = f
  simp only [scanStr]
  rw [if_neg h1, if_neg h2, if_neg h3]
  rw [parseJString, hgen]

theorem parseJString_short (e d : Nat) (he : shortEsc e = some d) (hne : e ≠ 117)
    (t : List Nat) :
    parseJString (92 :: e :: t) =
      Option.map (fun p => (d :: p.1, p.2)) (parseJString t) := by
  show scanStr ((92 :: e :: t).length + 1) (92 :: e :: t) = _
  have hf : (92 :: e :: t).length + 1 = (t.length + 2) + 1 := by simp
  rw [hf]
  generalize hgen : t.length + 2 = f
  simp only [scanStr, if_true]
  rw [if_neg hne, he]
  dsimp only []
  have hcongr : scanStr f t = scanStr (t.length + 1) t :=
    scanStr_congr f (t.length + 1) t (by omega) (by omega)
  rw [hcongr, parseJString]
  norm_num

theorem parseJString_u (n : Nat) (hn : n < 65536) (hns : ¬(55296 ≤ n ∧ n < 56320))
    (t : List Nat) :
    parseJString (92 :: 117 :: (toHex4 n ++ t)) =
      Option.map (fun p => (n :: p.1, p.2)) (parseJString t) := by
  show scanStr ((92 :: 117 :: (toHex4 n ++ t)).length + 1) _ = _
  have hf : (92 :: 117 :: (toHex4 n ++ t)).length + 1 = (t.length + 6) + 1 := by
    simp [toHex4_length]
    omega
  rw [hf]
  generalize hgen : t.length + 6 = f
  simp only [scanStr, if_true]
  rw [parse4Hex_toHex4 n hn t]
  dsimp only []
  rw [if_neg hns]
  rw [scanStr_congr f (t.length + 1) t (by omega) (by omega), parseJString]
  norm_num

theorem parseJString_pair (hi lo : Nat) (hhi1 : 55296 ≤ hi) (hhi2 : hi < 56320)
    (hlo1 : 56320 ≤ lo) (hlo2 : lo < 57344) (t : List Nat) :
    parseJString (92 :: 117 :: (toHex4 hi ++ (92 :: 117 :: (toHex4 lo ++ t)))) =
      Option.map (fun p => ((65536 + (hi - 55296) * 1024 + (lo - 56320)) :: p.1, p.2))
        (parseJString t) := by
  have hpl : pairLookahead hi (92 :: 117 :: (toHex4 lo ++ t)) =
      (65536 + (hi - 55296) * 1024 + (lo - 56320), t) := by
    unfold pairLookahead
    dsimp only []
    rw [if_pos (show (92:Nat) = 92 ∧ (117:Nat) = 117 from ⟨rfl, rfl⟩)]
    rw [parse4Hex_toHex4 _ (by omega) t]
    dsimp only []
    rw [if_pos (show 56320 ≤ lo ∧ lo < 57344 from ⟨hlo1, hlo2⟩)]
  show scanStr ((92 :: 117 :: (toHex4 hi ++ (92 :: 117 :: (toHex4 lo ++ t)))).length + 1) _ = _
  have hf : (92 :: 117 :: (toHex4 hi ++ (92 :: 117 :: (toHex4 lo ++ t)))).length + 1 =
      (t.length + 12) + 1 := by
    simp [toHex4_length]
    omega
  rw [hf]
  generalize hgen : t.length + 12 = f
  simp only [scanStr, if_true]
  rw [if_neg (show ¬(92 = 34) by norm_num)]
  rw [parse4Hex_toHex4 _ (by omega) _]
  dsimp only []
  rw [if_pos (show 55296 ≤ hi ∧ hi < 56320 from ⟨hhi1, hhi2⟩)]
  rw [hpl]
  dsimp only []
  rw [scanStr_congr f (t.length + 1) t (by omega) (by omega), parseJString]

theorem parseJString_escapeChar (c : Nat) (hc : ValidCP c) (t : List Nat) :
    parseJString (escapeChar c ++ t) =
      Option.map (fun p => (c :: p.1, p.2)) (parseJString t) := by
  by_cases h34 : c = 34
  · subst h34
    rw [show escapeChar 34 = [92, 34] by decide]
    exact parseJString_short 34 34 (by decide) (by decide) t
  by_cases h92 : c = 92
  · subst h92
    rw [show escapeChar 92 = [92, 92] by decide]
    exact parseJString_short 92 92 (by decide) (by decide) t
  by_cases h8 : c = 8
  · subst h8
    rw [show escapeChar 8 = [92, 98] by decide]
    exact parseJString_short 98 8 (by decide) (by decide) t
  by_cases h9 : c = 9
  · subst h9
    rw [show escapeChar 9 = [92, 116] by decide]
    exact parseJString_short 116 9 (by decide) (by decide) t
  by_cases h10 : c = 10
  · subst h10
    rw [show escapeChar 10 = [92, 110] by decide]
    exact parseJString_short 110 10 (by decide) (by decide) t
  by_cases h12 : c = 12
  · subst h12
    rw [show escapeChar 12 = [92, 102] by decide]
    exact parseJString_short 102 12 (by decide) (by decide) t
  by_cases h13 : c = 13
  · subst h13
    rw [show escapeChar 13 = [92, 114] by decide]
    exact parseJString_short 114 13 (by decide) (by decide) t
  by_cases hctl : c < 32
  · have he : escapeChar c = 92 :: 117 :: toHex4 c := by
      unfold escapeChar
      rw [if_neg h34, if_neg h92, if_neg h8, if_neg h9, if_neg h10, if_neg h12,
        if_neg h13, if_pos hctl]
    rw [he]
    exact parseJString_u c (by omega) (by omega) t
  by_cases h126 : c ≤ 126
  · have he : escapeChar c = [c] := by
      unfold escapeChar
      rw [if_neg h34, if_neg h92, if_neg h8, if_neg h9, if_neg h10, if_neg h12,
        if_neg h13, if_neg hctl, if_pos h126]
    rw [he]
    exact parseJString_lit c h34 h92 hctl t
  by_cases hbmp : c < 65536
  · have he : escapeChar c = 92 :: 117 :: toHex4 c := by
      unfold escapeChar
      rw [if_neg h34, if_neg h92, if_neg h8, if_neg h9, if_neg h10, if_neg h12,
        if_neg h13, if_neg hctl, if_neg h126, if_pos hbmp]
    rw [he]
    refine parseJString_u c hbmp ?_ t
    rcases hc with hc | hc
    · omega
    · omega
  · have he : escapeChar c = (92 :: 117 :: toHex4 (55296 + (c - 65536) / 1024)) ++
        (92 :: 117 :: toHex4 (56320 + (c - 65536) % 1024)) := by
      unfold escapeChar
      rw [if_neg h34, if_neg h92, if_neg h8, if_neg h9, if_neg h10, if_neg h12,
        if_neg h13, if_neg hctl, if_neg h126, if_neg hbmp]
    rw [he]
    have hlt : c < 1114112 := by
      rcases hc with hc | hc
      · omega
      · omega
    have hnorm : ((92 :: 117 :: toHex4 (55296 + (c - 65536) / 1024)) ++
        (92 :: 117 :: toHex4 (56320 + (c - 65536) % 1024))) ++ t =
        92 :: 117 :: (toHex4 (55296 + (c - 65536) / 1024) ++
          (92 :: 117 :: (toHex4 (56320 + (c - 65536) % 1024) ++ t))) := by
      simp [List.cons_append, List.append_assoc]
    rw [hnorm]
    rw [parseJString_pair (55296 + (c - 65536) / 1024) (56320 + (c - 65536) % 1024)
      (by omega) (by omega) (by omega) (by omega) t]
    have hval : 65536 + ((55296 + (c - 65536) / 1024) - 55296) * 1024 +
        ((56320 + (c - 65536) % 1024) - 56320) = c := by omega
    rw [hval]

theorem parseJString_escape (s : List Nat) (hs : ValidText s) (t : List Nat) :
    parseJString (escape s ++ (34 :: t)) = some (s, t) := by
  induction s with
  | nil =>
    simp only [escape, List.map_nil, List.flatten_nil, List.nil_append]
    exact parseJString_quote t
  | cons c cs ih =>
    have hc : ValidCP c := hs c (by simp)
    have hcs : ValidText cs := fun x hx => hs x (by simp [hx])
    have hesc : escape (c :: cs) = escapeChar c ++ escape cs := by
      simp [escape]
    rw [hesc, List.append_assoc, parseJString_escapeChar c hc, ih hcs]
    rfl

/-- Whitespace characters skipped by the json.loads scanner. -/
def wsChar (c : Nat) : Bool :=
  c = 32 || c = 9 || c = 10 || c = 13

/-- Skip leading whitespace, as json.loads does between tokens. -/
def skipWs (l : List Nat) : List Nat :=
  l.dropWhile wsChar

theorem skipWs_length (l : List Nat) : (skipWs l).length ≤ l.length := by
  induction l with
  | nil => simp [skipWs]
  | cons c r ih =>
    by_cases h : wsChar c
    · rw [skipWs, List.dropWhile_cons_of_pos h]
      rw [skipWs] at ih
      simp only [List.length_cons]
      omega
    · rw [skipWs, List.dropWhile_cons_of_neg (by simpa using h)]

theorem skipWs_cons_of_ws (c : Nat) (h : wsChar c = true) (l : List Nat) :
    skipWs (c :: l) = skipWs l := by
  rw [skipWs, List.dropWhile_cons_of_pos h, skipWs]

theorem skipWs_cons_of_not (c : Nat) (h : wsChar c = false) (l : List Nat) :
    skipWs (c :: l) = c :: l := by
  rw [skipWs, List.dropWhile_cons_of_neg (by simp [h])]

/-- Parse one JSON string token: skip whitespace, expect an opening
quote, then scan the string body. -/
def parseKeyedString (l : List Nat) : Option (List Nat × List Nat) :=
  match skipWs l with
  | c :: r => if c = 34 then parseJString r else none
  | [] => none

/-- Parse one member of a JSON object: a string key, a colon, a string
value; returns the member and the first non-whitespace character after
it together with the rest of the input. -/
def parseMember (l : List Nat) : Option ((List Nat × List Nat) × (Nat × List Nat)) :=
  match parseKeyedString l with
  | none => none
  | some (k, r2) =>
    match skipWs r2 with
    | c :: r3 =>
      if c = 58 then
        match parseKeyedString r3 with
        | none => none
        | some (v, r5) =>
          match skipWs r5 with
          | d :: r6 => some ((k, v), (d, r6))
          | [] => none
      else none
    | [] => none

theorem parseKeyedString_length {l : List Nat} {s r : List Nat}
    (h : parseKeyedString l = some (s, r)) : r.length < l.length := by
  unfold parseKeyedString at h
  rcases hsw : skipWs l with _ | ⟨c, t⟩
  · rw [hsw] at h
    exact absurd h (by simp)
  · rw [hsw] at h
    dsimp only [] at h
    by_cases hc : c = 34
    · rw [if_pos hc] at h
      have h1 := scanStr_length _ _ _ _ h
      have h2 := skipWs_length l
      rw [hsw] at h2
      simp only [List.length_cons] at h2
      omega
    · rw [if_neg hc] at h
      exact absurd h (by simp)

theorem parseMember_length {l : List Nat} {kv : List Nat × List Nat} {c : Nat}
    {r6 : List Nat} (h : parseMember l = some (kv, (c, r6))) : r6.length < l.length := by
  unfold parseMember at h
  rcases h1 : parseKeyedString l with _ | ⟨k, r2⟩
  · rw [h1] at h
    exact absurd h (by simp)
  · rw [h1] at h
    dsimp only [] at h
    have hl1 := parseKeyedString_length h1
    rcases h2 : skipWs r2 with _ | ⟨d, r3⟩
    · rw [h2] at h
      exact absurd h (by simp)
    · rw [h2] at h
      dsimp only [] at h
      have hl2 := skipWs_length r2
      rw [h2] at hl2
      simp only [List.length_cons] at hl2
      by_cases hd : d = 58
      · rw [if_pos hd] at h
        rcases h3 : parseKeyedString r3 with _ | ⟨v, r5⟩
        · rw [h3] at h
          exact absurd h (by simp)
        · rw [h3] at h
          dsimp only [] at h
          have hl3 := parseKeyedString_length h3
          rcases h4 : skipWs r5 with _ | ⟨e, r7⟩
          · rw [h4] at h
            exact absurd h (by simp)
          · rw [h4] at h
            dsimp only [] at h
            have hl4 := skipWs_length r5
            rw [h4] at hl4
            simp only [List.length_cons] at hl4
            have : r7 = r6 := by
              have := (Option.some.injEq _ _).mp h
              simp at this
              exact this.2.2
            subst this
            omega
      · rw [if_neg hd] at h
        exact absurd h (by simp)

/-- Parse the members of a JSON object after the opening brace: each
member is followed either by a comma (continue) or by the closing brace
(done, with only trailing whitespace allowed after it, as json.loads
rejects trailing data).  The fuel argument only forces termination. -/
def parseMembersFuel : Nat → List Nat → Option (List (List Nat × List Nat))
  | 0, _ => none
  | fuel + 1, l =>
    match parseMember l with
    | none => none
    | some (kv, (c, r6)) =>
      if c = 44 then Option.map (fun ms => kv :: ms) (parseMembersFuel fuel r6)
      else if c = 125 then (if skipWs r6 = [] then some [kv] else none)
      else none

/-- The member parser with enough fuel for its input. -/
def parseMembersAux (l : List Nat) : Option (List (List Nat × List Nat)) :=
  parseMembersFuel (l.length + 1) l

theorem parseMembersFuel_congr : ∀ (f1 f2 : Nat) (l : List Nat),
    l.length < f1 → l.length < f2 → parseMembersFuel f1 l = parseMembersFuel f2 l := by
  intro f1
  induction f1 with
  | zero => intro f2 l h1 h2; omega
  | succ f ih =>
    intro f2 l h1 h2
    cases f2 with
    | zero => omega
    | succ f2x =>
      simp only [parseMembersFuel]
      rcases hm : parseMember l with _ | ⟨kv, c, r6⟩
      · rfl
      · dsimp only []
        have hl := parseMember_length hm
        by_cases hc : c = 44
        · rw [if_pos hc, if_pos hc, ih f2x r6 (by omega) (by omega)]
        · rw [if_neg hc, if_neg hc]

/-- The json.loads model for the fragment produced by to_json_string: a
top-level object whose values are strings.  Skip whitespace, expect an
opening brace, handle the empty object, otherwise parse the members;
trailing data after the closing brace is rejected. -/
def loads (l : List Nat) : Option (List (List Nat × List Nat)) :=
  match skipWs l with
  | c :: r =>
    if c = 123 then
      match skipWs r with
      | d :: r2 => if d = 125 then (if skipWs r2 = [] then some [] else none)
                   else parseMembersAux r
      | [] => none
    else none
  | [] => none

theorem parseMembersFuel_succ (f : Nat) (l : List Nat) :
    parseMembersFuel (f + 1) l =
      match parseMember l with
      | none => none
      | some (kv, (c, r6)) =>
        if c = 44 then Option.map (fun ms => kv :: ms) (parseMembersFuel f r6)
        else if c = 125 then (if skipWs r6 = [] then some [kv] else none)
        else none := rfl

theorem parseMembersAux_step {l : List Nat} {kv : List Nat × List Nat} {r6 : List Nat}
    (h : parseMember l = some (kv, (44, r6))) :
    parseMembersAux l = Option.map (fun ms => kv :: ms) (parseMembersAux r6) := by
  have hl := parseMember_length h
  show parseMembersFuel (l.length + 1) l = _
  rw [parseMembersFuel_succ, h]
  dsimp only []
  rw [if_pos rfl]
  rw [parseMembersFuel_congr l.length (r6.length + 1) r6 (by omega) (by omega)]
  rfl

theorem parseMembersAux_last {l : List Nat} {kv : List Nat × List Nat} {r6 : List Nat}
    (h : parseMember l = some (kv, (125, r6))) (h2 : skipWs r6 = []) :
    parseMembersAux l = some [kv] := by
  show parseMembersFuel (l.length + 1) l = some [kv]
  rw [parseMembersFuel_succ, h]
  dsimp only []
  rw [if_neg (by norm_num), if_pos rfl, if_pos h2]

theorem parseMember_ws (c : Nat) (h : wsChar c = true) (l : List Nat) :
    parseMember (c :: l) = parseMember l := by
  unfold parseMember parseKeyedString
  rw [skipWs_cons_of_ws c h l]

theorem parseMember_enc (k v : List Nat) (hk : ValidText k) (hv : ValidText v)
    (t : List Nat) (d : Nat) (r : List Nat) (ht : skipWs t = d :: r) :
    parseMember (34 :: (escape k ++ 34 :: 58 :: 32 :: 34 :: (escape v ++ 34 :: t))) =
      some ((k, v), (d, r)) := by
  unfold parseMember parseKeyedString
  rw [skipWs_cons_of_not 34 (by decide)]
  dsimp only []
  rw [if_pos rfl]
  rw [parseJString_escape k hk _]
  dsimp only []
  rw [skipWs_cons_of_not 58 (by decide)]
  dsimp only []
  rw [if_pos rfl]
  rw [skipWs_cons_of_ws 32 (by decide), skipWs_cons_of_not 34 (by decide)]
  dsimp only []
  rw [if_pos rfl]
  rw [parseJString_escape v hv t]
  dsimp only []
  rw [ht]

theorem loads_dumpsDict3 (k1 v1 k2 v2 k3 v3 : List Nat)
    (hk1 : ValidText k1) (hv1 : ValidText v1) (hk2 : ValidText k2)
    (hv2 : ValidText v2) (hk3 : ValidText k3) (hv3 : ValidText v3) :
    loads (dumpsDict [(k1, v1), (k2, v2), (k3, v3)]) =
      some [(k1, v1), (k2, v2), (k3, v3)] := by
  have hd : dumpsDict [(k1, v1), (k2, v2), (k3, v3)] =
      123 :: 10 :: 32 :: 32 :: 34 :: (escape k1 ++ 34 :: 58 :: 32 :: 34 :: (escape v1 ++
        34 :: 44 :: 10 :: 32 :: 32 :: 34 :: (escape k2 ++ 34 :: 58 :: 32 :: 34 :: (escape v2 ++
          34 :: 44 :: 10 :: 32 :: 32 :: 34 :: (escape k3 ++ 34 :: 58 :: 32 :: 34 :: (escape v3 ++
            34 :: 10 :: 125 :: [])))))) := by
    simp [dumpsDict, joinSep, memberEnc, encodeString]
  rw [hd]
  have hm3 : parseMember (10 :: 32 :: 32 :: 34 :: (escape k3 ++ 34 :: 58 :: 32 :: 34 ::
      (escape v3 ++ 34 :: 10 :: 125 :: []))) = some ((k3, v3), (125, [])) := by
    rw [parseMember_ws 10 (by decide), parseMember_ws 32 (by decide),
      parseMember_ws 32 (by decide)]
    exact parseMember_enc k3 v3 hk3 hv3 _ 125 []
      (by rw [skipWs_cons_of_ws 10 (by decide), skipWs_cons_of_not 125 (by decide)])
  have hm2 : parseMember (10 :: 32 :: 32 :: 34 :: (escape k2 ++ 34 :: 58 :: 32 :: 34 ::
      (escape v2 ++ 34 :: 44 :: 10 :: 32 :: 32 :: 34 :: (escape k3 ++ 34 :: 58 :: 32 :: 34 ::
        (escape v3 ++ 34 :: 10 :: 125 :: []))))) =
      some ((k2, v2), (44, 10 :: 32 :: 32 :: 34 :: (escape k3 ++ 34 :: 58 :: 32 :: 34 ::
        (escape v3 ++ 34 :: 10 :: 125 :: [])))) := by
    rw [parseMember_ws 10 (by decide), parseMember_ws 32 (by decide),
      parseMember_ws 32 (by decide)]
    exact parseMember_enc k2 v2 hk2 hv2 _ 44 _ (by rw [skipWs_cons_of_not 44 (by decide)])
  have hm1 : parseMember (10 :: 32 :: 32 :: 34 :: (escape k1 ++ 34 :: 58 :: 32 :: 34 ::
      (escape v1 ++ 34 :: 44 :: 10 :: 32 :: 32 :: 34 :: (escape k2 ++ 34 :: 58 :: 32 :: 34 ::
        (escape v2 ++ 34 :: 44 :: 10 :: 32 :: 32 :: 34 :: (escape k3 ++ 34 :: 58 :: 32 :: 34 ::
          (escape v3 ++ 34 :: 10 :: 125 :: []))))))) =
      some ((k1, v1), (44, 10 :: 32 :: 32 :: 34 :: (escape k2 ++ 34 :: 58 :: 32 :: 34 ::
        (escape v2 ++ 34 :: 44 :: 10 :: 32 :: 32 :: 34 :: (escape k3 ++ 34 :: 58 :: 32 :: 34 ::
          (escape v3 ++ 34 :: 10 :: 125 :: [])))))) := by
    rw [parseMember_ws 10 (by decide), parseMember_ws 32 (by decide),
      parseMember_ws 32 (by decide)]
    exact parseMember_enc k1 v1 hk1 hv1 _ 44 _ (by rw [skipWs_cons_of_not 44 (by decide)])
  unfold loads
  rw [skipWs_cons_of_not 123 (by decide)]
  dsimp only []
  rw [if_pos rfl]
  rw [skipWs_cons_of_ws 10 (by decide), skipWs_cons_of_ws 32 (by decide),
    skipWs_cons_of_ws 32 (by decide), skipWs_cons_of_not 34 (by decide)]
  dsimp only []
  rw [if_neg (by norm_num)]
  rw [parseMembersAux_step hm1, parseMembersAux_step hm2, parseMembersAux_last hm3 rfl]
  rfl

theorem validText_cp (s : String) : ValidText s.cp := by
  intro c hc
  simp only [String.cp, List.mem_map] at hc
  obtain ⟨ch, _, rfl⟩ := hc
  exact ch.valid

/-- Shared roundtrip fact: parsing the serialized response yields its
field dictionary, for responses whose fields are valid Unicode text. -/
theorem loads_to_json_string (r : ResponseFormatter) (ha : ValidText r.answer)
    (hp : ValidText r.poem) (hf : ValidText r.followup_question) :
    loads (to_json_string r) = some r.fieldsDict := by
  unfold to_json_string ResponseFormatter.fieldsDict
  exact loads_dumpsDict3 _ _ _ _ _ _ (validText_cp _) ha (validText_cp _) hp
    (validText_cp _) hf

/-- C10: serialization followed by parsing is a round-trip: for every
ResponseFormatter value with valid Unicode text fields, json.loads of
to_json_string succeeds and yields exactly the field dictionary. -/
theorem C10_roundtrip (r : ResponseFormatter) (ha : ValidText r.answer)
    (hp : ValidText r.poem) (hf : ValidText r.followup_question) :
    loads (to_json_string r) =
      some [(answerKey, r.answer), (poemKey, r.poem),
        (followupKey, r.followup_question)] :=
  loads_to_json_string r ha hp hf

theorem C10_roundtrip_witness :
    loads (to_json_string ⟨[104], [10], [128512]⟩) =
      some [(answerKey, [104]), (poemKey, [10]),
        (followupKey, [128512])] :=
  C10_roundtrip ⟨[104], [10], [128512]⟩ (by decide) (by decide) (by decide)

/-- The notebook's format_docs: join the page contents of the retrieved
documents with a blank line (the Python str.join on a newline pair). -/
def format_docs (docs : List (List Nat)) : List Nat :=
  joinSep [10, 10] docs

/-- The fixed instruction text of the notebook's system prompt (the
adjacent string literals of system_prompt before the blank line). -/
def sysInstr : List Nat :=
  "You are an assistant for question-answering tasks. Use the following pieces of retrieved context to answer the question. If you don\x27t know the answer, say that you don\x27t know. Use three sentences maximum and keep the answer concise.".cp

/-- The trailing sentence of the notebook's system prompt, after the
context placeholder. -/
def sysSuffix : List Nat :=
  "Your response should be a valid JSON object.".cp

/-- Message roles of the chat prompt template. -/
inductive Role where
  | system
  | human
deriving DecidableEq

/-- The system message after substituting the context block into the
system prompt template. -/
def systemMessage (ctx : List Nat) : List Nat :=
  sysInstr ++ (10 :: 10 :: (ctx ++ sysSuffix))

/-- The notebook's two-message ChatPromptTemplate after substitution:
the system message with the context block, then the human message
holding the user query verbatim. -/
def promptMessages (ctx q : List Nat) : List (Role × List Nat) :=
  [(.system, systemMessage ctx), (.human, q)]

/-- Prompt assembly as wired in rag_chain: the retrieved chunk texts are
formatted by format_docs into the context and the query is passed
through unchanged into the prompt template. -/
def assemble (docs : List (List Nat)) (q : List Nat) : List (Role × List Nat) :=
  promptMessages (format_docs docs) q

theorem joinSep_eq_intercalate (sep : List Nat) (ds : List (List Nat)) :
    joinSep sep ds = List.intercalate sep ds := by
  induction ds with
  | nil => simp [joinSep, List.intercalate]
  | cons d ds ih =>
    cases ds with
    | nil => simp [joinSep, List.intercalate]
    | cons d2 ds2 =>
      rw [show joinSep sep (d :: d2 :: ds2) = d ++ (sep ++ joinSep sep (d2 :: ds2))
        from rfl]
      rw [ih]
      simp [List.intercalate, List.intersperse, List.append_assoc]

theorem mem_joinSep (sep : List Nat) (docs : List (List Nat)) (d : List Nat)
    (hd : d ∈ docs) : ∃ a b, joinSep sep docs = a ++ (d ++ b) := by
  induction docs with
  | nil => cases hd
  | cons x xs ih =>
    cases xs with
    | nil =>
      simp only [List.mem_singleton] at hd
      subst hd
      exact ⟨[], [], by simp [joinSep]⟩
    | cons y ys =>
      rcases List.mem_cons.mp hd with hdx | hdtail
      · subst hdx
        exact ⟨[], sep ++ joinSep sep (y :: ys), rfl⟩
      · obtain ⟨a, b, hab⟩ := ih hdtail
        refine ⟨x ++ sep ++ a, b, ?_⟩
        rw [show joinSep sep (x :: y :: ys) = x ++ (sep ++ joinSep sep (y :: ys))
          from rfl, hab]
        simp [List.append_assoc]

/-- C2: prompt assembly concatenates the retrieved chunk texts in ranked
order separated by a blank line into the context block, and produces the
two-message role-tagged sequence: the system role holding the fixed
instructions followed by the context block and the trailing instruction,
and the human role holding the user query verbatim. -/
theorem C2_prompt_assembly (docs : List (List Nat)) (q : List Nat) :
    assemble docs q =
      [(Role.system, sysInstr ++ (10 :: 10 :: (format_docs docs ++ sysSuffix))),
        (Role.human, q)] ∧
    format_docs docs = List.intercalate [10, 10] docs :=
  ⟨rfl, joinSep_eq_intercalate [10, 10] docs⟩

/-- C3 counterexample: with two six-character retrieved chunks, the
assembled context block is the full fourteen-character concatenation,
exceeding a seven-character budget while still containing the
lowest-ranked chunk in full, so no budget-driven dropping occurs and no
truncation flag exists. -/
theorem C3_counterexample :
    format_docs [[97, 97, 97, 97, 97, 97], [98, 98, 98, 98, 98, 98]] =
      [97, 97, 97, 97, 97, 97] ++ ((10 :: 10 :: []) ++ [98, 98, 98, 98, 98, 98]) ∧
    7 < (format_docs [[97, 97, 97, 97, 97, 97], [98, 98, 98, 98, 98, 98]]).length := by
  constructor
  · rfl
  · decide

/-- C3 (amended): prompt assembly enforces no length budget: the context
block is always the blank-line-separated concatenation of all retrieved
chunk texts, and every retrieved chunk appears in it whole — no chunk is
ever dropped or cut mid-chunk and there is no truncation flag. -/
theorem C3_no_truncation (docs : List (List Nat)) (q : List Nat) (d : List Nat)
    (hd : d ∈ docs) :
    assemble docs q =
      [(Role.system, systemMessage (format_docs docs)), (Role.human, q)] ∧
    ∃ a b, format_docs docs = a ++ (d ++ b) :=
  ⟨rfl, mem_joinSep [10, 10] docs d hd⟩

theorem C3_no_truncation_witness :
    assemble [[97], [98]] [113] =
      [(Role.system, systemMessage (format_docs [[97], [98]])), (Role.human, [113])] ∧
    ∃ a b, format_docs [[97], [98]] = a ++ ([98] ++ b) :=
  C3_no_truncation [[97], [98]] [113] [98] (by simp)

/-- A dynamically-typed value of a raw Generator response object. -/
inductive PyVal where
  | vstr (s : List Nat)
  | vint (n : Int)
  | vnone
deriving DecidableEq

/-- Field lookup in a raw response object, first binding wins. -/
def lookupField (name : List Nat) : List (List Nat × PyVal) → Option PyVal
  | [] => none
  | (k, v) :: rest => if k = name then some v else lookupField name rest

/-- The distinguishable error kind raised when a Generator response does
not conform to the three-field schema. -/
inductive SchemaValidationError where
  | invalidResponse
deriving DecidableEq

/-- Modelled from the spec: validation of a raw Generator response
against the ResponseFormatter schema (in the notebook this binding is
enforced by with_structured_output and the pydantic model): each of
answer, poem and followup_question must be present and hold a string;
otherwise a SchemaValidationError results, never a malformed value. -/
def validateResponse (fs : List (List Nat × PyVal)) :
    Except SchemaValidationError ResponseFormatter :=
  match lookupField answerKey fs with
  | some (.vstr a) =>
    match lookupField poemKey fs with
    | some (.vstr p) =>
      match lookupField followupKey fs with
      | some (.vstr f) => .ok ⟨a, p, f⟩
      | _ => .error .invalidResponse
    | _ => .error .invalidResponse
  | _ => .error .invalidResponse

/-- C6: a Generator response missing any of the three required fields
fails validation with the distinguishable SchemaValidationError and is
never passed through as a valid response. -/
theorem C6_schema_validation (fs : List (List Nat × PyVal))
    (h : lookupField answerKey fs = none ∨ lookupField poemKey fs = none ∨
      lookupField followupKey fs = none) :
    validateResponse fs = .error .invalidResponse ∧
    ∀ r, validateResponse fs ≠ .ok r := by
  have herr : validateResponse fs = .error .invalidResponse := by
    unfold validateResponse
    rcases h1 : lookupField answerKey fs with _ | v1
    · rfl
    · rcases v1 with a | n | _
      · dsimp only []
        rcases h2 : lookupField poemKey fs with _ | v2
        · rcases h with h | h | h
          · simp [h1] at h
          · rfl
          · rfl
        · rcases v2 with p | n2 | _
          · dsimp only []
            rcases h3 : lookupField followupKey fs with _ | v3
            · rfl
            · rcases h with h | h | h
              · simp [h1] at h
              · simp [h2] at h
              · simp [h3] at h
          · rfl
          · rfl
      · rfl
      · rfl
  exact ⟨herr, fun r hc => by rw [herr] at hc; cases hc⟩

theorem C6_schema_validation_witness :
    validateResponse [] = .error .invalidResponse ∧
    ∀ r, validateResponse [] ≠ .ok r :=
  C6_schema_validation [] (Or.inl rfl)

/-- The linear pipeline steps of the Orchestrator state machine. -/
inductive Step where
  | embeddingQuery
  | retrieving
  | assemblingPrompt
  | generating
  | serializing
deriving DecidableEq

/-- Error modes of the external Embedder and Generator collaborators. -/
inductive CollabError where
  | timeout
  | quotaExceeded
  | malformedInput
deriving DecidableEq

/-- The underlying cause carried by an orchestrator error: a
collaborator error or a schema validation error. -/
inductive StepError where
  | collab (e : CollabError)
  | schema (e : SchemaValidationError)
deriving DecidableEq

/-- The single typed error returned by the orchestrator: the failing
step together with the underlying error. -/
structure OrchError where
  step : Step
  cause : StepError
deriving DecidableEq

/-- The external collaborators of the pipeline: the Embedder and the
Generator, both fallible. -/
structure Collaborators where
  embed : List Nat → Except CollabError (List Int)
  generate : List (Role × List Nat) → Except CollabError (List (List Nat × PyVal))

/-- Modelled from the spec: the Pipeline Orchestrator's query function,
the linear composition wired by rag_chain: embed the query, retrieve the
top-k chunks, assemble the prompt, generate and validate the structured
response, serialize it.  Retrieval, prompt assembly and serialization
are internal total steps; embedding and generation are collaborator
calls whose failure aborts the remaining steps with a typed error naming
the failing step, and schema validation failure is surfaced at the
generation step. -/
def runQuery (c : Collaborators) (idx : VectorIndex) (k : Nat) (q : List Nat) :
    Except OrchError (List Nat) :=
  match c.embed q with
  | .error e => .error ⟨.embeddingQuery, .collab e⟩
  | .ok qv =>
    match c.generate (assemble ((search idx qv k).map (fun s => s.chunk)) q) with
    | .error e => .error ⟨.generating, .collab e⟩
    | .ok raw =>
      match validateResponse raw with
      | .error e => .error ⟨.generating, .schema e⟩
      | .ok r => .ok (to_json_string r)

/-- C9: when a pipeline step fails, the orchestrator aborts the
remaining steps and returns the single typed error naming the failing
step and the underlying collaborator (or schema) error; and a successful
run returns exactly the full serialization of a validated structured
response, never a partial one. -/
theorem C9_error_propagation (c : Collaborators) (idx : VectorIndex) (k : Nat)
    (q : List Nat) :
    (∀ e, c.embed q = .error e →
      runQuery c idx k q = .error ⟨.embeddingQuery, .collab e⟩) ∧
    (∀ qv e, c.embed q = .ok qv →
      c.generate (assemble ((search idx qv k).map (fun s => s.chunk)) q) = .error e →
      runQuery c idx k q = .error ⟨.generating, .collab e⟩) ∧
    (∀ qv raw e, c.embed q = .ok qv →
      c.generate (assemble ((search idx qv k).map (fun s => s.chunk)) q) = .ok raw →
      validateResponse raw = .error e →
      runQuery c idx k q = .error ⟨.generating, .schema e⟩) ∧
    (∀ out, runQuery c idx k q = .ok out →
      ∃ qv raw r, c.embed q = .ok qv ∧
        c.generate (assemble ((search idx qv k).map (fun s => s.chunk)) q) = .ok raw ∧
        validateResponse raw = .ok r ∧ out = to_json_string r) := by
  refine ⟨?_, ?_, ?_, ?_⟩
  · intro e he
    unfold runQuery
    rw [he]
  · intro qv e he hg
    unfold runQuery
    rw [he]
    dsimp only []
    rw [hg]
  · intro qv raw e he hg hv
    unfold runQuery
    rw [he]
    dsimp only []
    rw [hg]
    dsimp only []
    rw [hv]
  · intro out h
    unfold runQuery at h
    rcases he : c.embed q with e | qv <;> rw [he] at h
    · simp at h
    · dsimp only [] at h
      rcases hg : c.generate (assemble ((search idx qv k).map (fun s => s.chunk)) q)
        with e | raw <;> rw [hg] at h
      · simp at h
      · dsimp only [] at h
        rcases hv : validateResponse raw with e | r <;> rw [hv] at h
        · simp at h
        · dsimp only [] at h
          refine ⟨qv, raw, r, rfl, hg, hv, ?_⟩
          simpa using h.symm

/-- Collaborators whose Embedder times out, witnessing the error
propagation of the orchestrator. -/
def collabsFail : Collaborators :=
  ⟨fun _ => .error .timeout, fun _ => .ok []⟩

theorem C9_error_propagation_witness :
    runQuery collabsFail (emptyIndex 1) 4 [113] =
      .error ⟨.embeddingQuery, .collab .timeout⟩ :=
  (C9_error_propagation collabsFail (emptyIndex 1) 4 [113]).1 .timeout rfl

/-- C1: whenever the pipeline succeeds, its output is the serialization
of a structured response; parsed back (given valid Unicode text fields,
per the collaborator contract) it is exactly the JSON object with the
three string-valued keys answer, poem and followup_question. -/
theorem C1_pipeline_three_keys (c : Collaborators) (idx : VectorIndex) (k : Nat)
    (q out : List Nat) (h : runQuery c idx k q = .ok out) :
    ∃ r : ResponseFormatter, out = to_json_string r ∧
      (ValidText r.answer → ValidText r.poem → ValidText r.followup_question →
        loads out = some [(answerKey, r.answer), (poemKey, r.poem),
          (followupKey, r.followup_question)]) := by
  unfold runQuery at h
  rcases he : c.embed q with e | qv <;> rw [he] at h
  · simp at h
  · dsimp only [] at h
    rcases hg : c.generate (assemble ((search idx qv k).map (fun s => s.chunk)) q)
      with e | raw <;> rw [hg] at h
    · simp at h
    · dsimp only [] at h
      rcases hv : validateResponse raw with e | r <;> rw [hv] at h
      · simp at h
      · dsimp only [] at h
        have hout : out = to_json_string r := by simpa using h.symm
        subst hout
        exact ⟨r, rfl, fun ha hp hf => loads_to_json_string r ha hp hf⟩

/-- Collaborators that succeed with a fixed three-field response,
witnessing a successful pipeline run. -/
def collabsOk : Collaborators :=
  ⟨fun _ => .ok [1],
    fun _ => .ok [(answerKey, .vstr [104]), (poemKey, .vstr [105]),
      (followupKey, .vstr [106])]⟩

theorem C1_pipeline_three_keys_witness :
    ∃ r : ResponseFormatter,
      to_json_string ⟨[104], [105], [106]⟩ = to_json_string r ∧
      (ValidText r.answer → ValidText r.poem → ValidText r.followup_question →
        loads (to_json_string ⟨[104], [105], [106]⟩) =
          some [(answerKey, r.answer), (poemKey, r.poem),
            (followupKey, r.followup_question)]) :=
  C1_pipeline_three_keys collabsOk (emptyIndex 1) 4 [113]
    (to_json_string ⟨[104], [105], [106]⟩) rfl
